import Mathlib

/-!
Verification development for the PromEmu emulation engine.

Shallow embedding of the core value pipeline of the repository:
metric value computation (src/core/emulation/metrics.py), the host
update loop's counter accumulation (src/core/emulation/hosts.py), the
mixer's per-job registry update (src/core/emulation/mixer.py), the
scenario library (src/core/emulation/scenarios.py) and the utility
functions (src/core/emulation/utils.py).

Python floats are modelled as rationals (ℚ); Python's builtin round
(round half to even) is modelled exactly on ℚ; time.time() values are
passed explicitly as rational timestamps; random.uniform is passed as
an explicit sampling oracle; the per-metric StateStorage is modelled
as a record of the keys each scenario actually uses.
-/

namespace PromEmu

/-! ## Rounding: Python's builtin round at 2 decimal places -/

/-- Round a rational to the nearest integer, ties to even, as Python's
builtin round does on exact values.  Uses the executable Rat.floor. -/
def roundHalfEven (q : ℚ) : ℤ :=
  let f := Rat.floor q
  let r := q - (f : ℚ)
  if r < 1/2 then f
  else if 1/2 < r then f + 1
  else if f % 2 = 0 then f else f + 1

/-- Model of Python round(x, 2): round half to even at 2 decimal places.
Mirrors VALUE_DECIMAL_PLACES = 2 in src/core/emulation/metrics.py. -/
def round2 (q : ℚ) : ℚ := (roundHalfEven (q * 100) : ℚ) / 100

/-! ## EmulatedMetric.update_value (src/core/emulation/metrics.py, lines 186-222) -/

/-- Metric types supported by the system (class MetricType). -/
inductive MetricType
  | gauge
  | counter
  | histogram
deriving DecidableEq

/-- The fields of MetricConfig that update_value and the host loop read.
ttl is Option ℚ with none standing for float('inf'), the default. -/
structure MetricConfig where
  value_range : ℚ × ℚ
  update_interval : ℚ
  ttl : Option ℚ
  metric_type : MetricType
deriving DecidableEq

/-- The mutable state of an EmulatedMetric that update_value touches:
self._value and self._last_update. -/
structure MetricState where
  value : Option ℚ
  lastUpdate : ℚ
deriving DecidableEq

/-- TTL gate of update_value: self.config.ttl != float('inf') and
current_time > self._start_time + self.config.ttl. -/
def ttlExpired (ttl : Option ℚ) (startTimestamp now : ℚ) : Bool :=
  match ttl with
  | none => false
  | some t => decide (startTimestamp + t < now)

/-- Range clamp of update_value (lines 216-219): pull the value to the
nearest bound of value_range when it falls outside. -/
def clampToRange (vr : ℚ × ℚ) (v : ℚ) : ℚ :=
  if v < vr.1 then vr.1 else if vr.2 < v then vr.2 else v

/-- Lines 213-221 of update_value applied to the scenario result:
clamp a non-nil value to value_range, then round to 2 decimal places;
nil passes through as nil. -/
def clampRound (vr : ℚ × ℚ) (v : Option ℚ) : Option ℚ :=
  v.map (fun x => round2 (clampToRange vr x))

/-- Embedding of EmulatedMetric.update_value (lines 186-222).

startTimestamp is self._start_time; eventPresent is whether the
event argument is non-None; scenRes is the value returned by
self._update_value_by_scenario (the scenario's return value, or the
prior self.value when no scenario is set or the scenario raised).
Returns the pair (returned value, new metric state). -/
def update_value (cfg : MetricConfig) (startTimestamp : ℚ) (st : MetricState)
    (now : ℚ) (eventPresent : Bool) (scenRes : Option ℚ) : Option ℚ × MetricState :=
  if eventPresent then
    let v := clampRound cfg.value_range scenRes
    (v, { st with value := v })
  else if now < startTimestamp then (none, st)
  else if ttlExpired cfg.ttl startTimestamp now then (none, st)
  else if now - st.lastUpdate < cfg.update_interval then (st.value, st)
  else
    let v := clampRound cfg.value_range scenRes
    (v, { value := v, lastUpdate := now })

/-- Metric config used by the concrete instances below: a gauge on
[0, 100] with the default update_interval 10 and a finite ttl. -/
def cfgStd : MetricConfig :=
  { value_range := (0, 100), update_interval := 10, ttl := some 60, metric_type := .gauge }

/-- Metric config whose range minimum 1/3 is not representable at two
decimal places; used to exhibit the post-rounding range escape. -/
def cfgThird : MetricConfig :=
  { value_range := (1/3, 1), update_interval := 10, ttl := none, metric_type := .gauge }

/-! ## EmulatedHost._update_metrics (src/core/emulation/hosts.py, lines 168-187) -/

/-- One metric's slice of the host state read by _update_metrics:
its name, its type, the counter_total key of its scenario_state storage
(absent initially, read with default 0), and the value produced by
update_value on the current tick (None when the metric is gated off). -/
structure HostMetric where
  name : String
  metric_type : MetricType
  counter_total : Option ℚ
  tickValue : Option ℚ
deriving DecidableEq

/-- Embedding of the batch-building loop of EmulatedHost._update_metrics
(lines 172-184): metrics are visited in order; a nil value contributes
nothing; for a Counter the stored counter_total (default 0) is increased
by the tick value, persisted, and the new total is published; any other
type publishes the tick value directly.  Returns the batch (metrics_data)
and the metrics with updated storage. -/
def update_metrics : List HostMetric → List (String × ℚ) × List HostMetric
  | [] => ([], [])
  | m :: ms =>
    let rest := update_metrics ms
    match m.tickValue with
    | none => (rest.1, m :: rest.2)
    | some v =>
      match m.metric_type with
      | MetricType.counter =>
        let t := m.counter_total.getD 0 + v
        ((m.name, t) :: rest.1, { m with counter_total := some t } :: rest.2)
      | _ => ((m.name, v) :: rest.1, m :: rest.2)

/-- Published series of a single Counter metric across a host lifetime:
each element of vals is the tick's update_value result, the batch entry
produced by update_metrics is collected, and the updated counter_total
storage is carried to the next tick. -/
def counterSeries (name : String) (stor : Option ℚ) : List (Option ℚ) → List ℚ
  | [] => []
  | v :: vs =>
    let r := update_metrics [{ name := name, metric_type := MetricType.counter,
                               counter_total := stor, tickValue := v }]
    let stor' := match r.2 with
      | m' :: _ => m'.counter_total
      | [] => stor
    r.1.map Prod.snd ++ counterSeries name stor' vs

/-! ## MetricsMixer.update_metrics_by_host (src/core/emulation/mixer.py, lines 177-237) -/

/-- The per-host registry record stored by update_metrics_by_host:
{value, labels, timestamp}.  Labels are an arbitrary type with decidable
equality, standing for the Python label dict compared with ==. -/
structure MixEntry (L : Type) where
  value : ℚ
  labels : L
  timestamp : ℚ
deriving DecidableEq

/-- Assignment into the per-metric registry map keyed by host name,
modelling the Python dict assignment on line 217: overwrite the entry of
this host if present, append it otherwise. -/
def setEntry {L : Type} (reg : List (String × MixEntry L)) (host : String)
    (e : MixEntry L) : List (String × MixEntry L) :=
  match reg with
  | [] => [(host, e)]
  | (h, e0) :: rest =>
    if h = host then (host, e) :: rest else (h, e0) :: setEntry rest host e

/-- Lookup of a host's record in the per-metric registry map, modelling
Python dict indexing by host name. -/
def getEntry {L : Type} : List (String × MixEntry L) → String → Option (MixEntry L)
  | [], _ => none
  | (k, e) :: rest, h => if k = h then some e else getEntry rest h

/-- Embedding of the body of update_metrics_by_host for one batch entry
(name, value) whose metric name is present in the job registry
(lines 199-221): reg is the per-(job, metric name) map from host name to
{value, labels, timestamp} (the _prom_metric and _metric_type bookkeeping
keys are modelled apart); a duplicate warning is logged when some other
host already stores an entry with an identical label map; the new entry
is stored in every case.  Returns (warning logged, updated registry). -/
def update_metrics_by_host_entry {L : Type} [DecidableEq L]
    (reg : List (String × MixEntry L)) (host : String) (labels : L)
    (value now : ℚ) : Bool × List (String × MixEntry L) :=
  let warning := reg.any (fun p => decide (p.1 ≠ host) && decide (p.2.labels = labels))
  (warning, setEntry reg host { value := value, labels := labels, timestamp := now })

/-! ## Scenarios.feature_toggle (src/core/emulation/scenarios.py, lines 53-115) -/

/-- Python float modulo a % b for b > 0: a - b * floor(a / b). -/
def qmod (a b : ℚ) : ℚ := a - b * (Rat.floor (a / b) : ℚ)

/-- The storage keys used by feature_toggle: start_timestamp (absent on
the first call) and feature_active (read with default False). -/
structure ToggleState where
  start_timestamp : Option ℚ
  feature_active : Bool
deriving DecidableEq

/-- Events emitted by feature_toggle on state transitions. -/
inductive FeatureEvent
  | feature_on
  | feature_off
deriving DecidableEq

/-- The on-state computation of feature_toggle (lines 95-100): in-cycle
position within duration + interval compared against duration. -/
def toggleIsOn (elapsed start_time duration interval : ℚ) : Bool :=
  decide (qmod (elapsed - start_time) (duration + interval) < duration)

/-- Embedding of Scenarios.feature_toggle: validates parameters, stores
start_timestamp on the first call, returns off_value before start_time,
then toggles by cycle position, emitting feature_on / feature_off on
transitions of the stored feature_active flag.  Returns the value, the
emitted event if any, and the updated storage. -/
def feature_toggle (st : ToggleState)
    (now start_time duration interval on_value off_value : ℚ) :
    Except String (ℚ × Option FeatureEvent × ToggleState) :=
  if start_time < 0 ∨ duration ≤ 0 ∨ interval ≤ 0 then
    Except.error ("Start time must be non-negative, duration and interval must be positive")
  else
    let st0 := match st.start_timestamp with
      | none => { st with start_timestamp := some now }
      | some _ => st
    let ts := st0.start_timestamp.getD now
    let elapsed := now - ts
    if elapsed < start_time then Except.ok (off_value, none, st0)
    else
      let is_on := toggleIsOn elapsed start_time duration interval
      if is_on ≠ st0.feature_active then
        Except.ok ((if is_on then on_value else off_value),
          some (if is_on then FeatureEvent.feature_on else FeatureEvent.feature_off),
          { st0 with feature_active := is_on })
      else
        Except.ok ((if is_on then on_value else off_value), none, st0)

/-! ## Scenarios.update_by_trend (src/core/emulation/scenarios.py, lines 323-363) -/

/-- Embedding of Scenarios.update_by_trend.  uniform is the
random.uniform oracle; stor is the accumulated_value storage key;
ctxValue is ctx.value, the default when the key is absent.  Returns
the scenario result (or the raised error) together with the
accumulated_value storage after the call. -/
def update_by_trend (uniform : ℚ → ℚ → ℚ) (stor : Option ℚ)
    (ctxValue : Option ℚ) (trend : String) (step_range : ℚ × ℚ) :
    Except String ℚ × Option ℚ :=
  if step_range.1 < 0 ∨ step_range.2 < 0 ∨ step_range.2 < step_range.1 then
    (Except.error ("Step range values must be non-negative and min_step <= max_step"), stor)
  else
    let acc := match stor with
      | some a => some a
      | none => ctxValue
    if trend = ("up") then
      match acc with
      | none => (Except.error ("unsupported operand type"), stor)
      | some a =>
        let step := uniform step_range.1 step_range.2
        (Except.ok (a + step), some (a + step))
    else if trend = ("down") then
      match acc with
      | none => (Except.error ("unsupported operand type"), stor)
      | some a =>
        let step := uniform (-step_range.2) (-step_range.1)
        (Except.ok (a + step), some (a + step))
    else if trend = ("hold") then
      match acc with
      | none => (Except.error ("unsupported operand type"), stor)
      | some a =>
        let step := uniform (-step_range.1) step_range.2
        (Except.ok (a + step), stor)
    else (Except.error ("Invalid trend value"), stor)

/-! ## calc_percent_usage (src/core/emulation/utils.py, lines 68-85) -/

/-- Embedding of calc_percent_usage: nil value passes through as nil,
an inverted or empty range raises, otherwise the value is clamped with
max(min_value, min(max_value, value)) and mapped affinely to [0, 100]. -/
def calc_percent_usage : Option ℚ → ℚ × ℚ → Except String (Option ℚ)
  | none, _ => Except.ok none
  | some v, vr =>
    if vr.2 ≤ vr.1 then Except.error ("Invalid target metric range")
    else
      let clamped := max vr.1 (min vr.2 v)
      Except.ok (some ((clamped - vr.1) / (vr.2 - vr.1) * 100))

/-! ## Scenarios.switch_scenario_by_events (src/core/emulation/scenarios.py, lines 204-299) -/

/-- One entry of events_config.  scenario is Option (Option F): none
when the entry has no scenario key; some none when the key is present
but resolves to no function (not a library name, not callable);
some (some f) when it resolves to f.  scenario_data is none when the
key is absent (Python default {}); duration is none when absent or
stored as None. -/
structure EventEntry (F D : Type) where
  scenario : Option (Option F)
  scenario_data : Option D
  duration : Option ℚ

/-- The storage keys used by switch_scenario_by_events, each none when
the key is absent or holds None. -/
structure SwitchStorage (F D : Type) where
  last_event_params : Option D
  last_event_timestamp : Option ℚ
  last_event_duration : Option ℚ
  last_event_scenario : Option F
deriving DecidableEq

/-- Lookup of an event name in events_config (Python dict membership). -/
def lookupEntry {F D : Type} : List (String × EventEntry F D) → String → Option (EventEntry F D)
  | [], _ => none
  | (k, e) :: rest, n => if k = n then some e else lookupEntry rest n

/-- Steps 3-5 of switch_scenario_by_events (lines 272-299): reuse the
stored last event scenario while within its duration, then the default
scenario, then a uniform sample rand.  invoke f d is the outcome of
the Python call fn(ctx, **d): error models a raised exception, ok none a
return value on which float() raises (such as None), ok (some v) a value
converting to v.  Steps 3-5 never modify the storage. -/
def switchFallthrough {F D : Type} (invoke : F → Option D → Except Unit (Option ℚ))
    (rand : ℚ) (st : SwitchStorage F D) (now : ℚ)
    (default_scenario : Option (Option F)) (default_scenario_data : Option D) :
    ℚ × SwitchStorage F D :=
  let step45 : ℚ :=
    match default_scenario with
    | some (some f) =>
      match invoke f default_scenario_data with
      | Except.ok (some v) => v
      | _ => rand
    | _ => rand
  match st.last_event_scenario, st.last_event_timestamp with
  | some f, some ts =>
    let durationOk : Bool :=
      match st.last_event_duration with
      | none => true
      | some d => decide (now - ts ≤ d)
    if ts ≠ 0 ∧ durationOk = true then
      match invoke f st.last_event_params with
      | Except.ok (some v) => (v, st)
      | _ => (step45, st)
    else (step45, st)
  | _, _ => (step45, st)

/-- Embedding of Scenarios.switch_scenario_by_events.  When the context
event matches an events_config key whose entry has a scenario key, the
last_event_params / last_event_timestamp / last_event_duration keys are
stored first (lines 244-249); a resolvable scenario is then invoked:
on a value the scenario is persisted as last_event_scenario and the
float of the value returned (float failure still persists the scenario
and yields the uniform sample), while a raised exception yields the
uniform sample without touching last_event_scenario (lines 258-265).
An entry without a scenario key clears the last_event state and falls
through; every other shape falls through to steps 3-5. -/
def switch_scenario_by_events {F D : Type}
    (invoke : F → Option D → Except Unit (Option ℚ)) (rand : ℚ)
    (st : SwitchStorage F D) (now : ℚ) (event : Option String)
    (events_config : List (String × EventEntry F D))
    (default_scenario : Option (Option F)) (default_scenario_data : Option D) :
    ℚ × SwitchStorage F D :=
  match event with
  | some e =>
    match lookupEntry events_config e with
    | some entry =>
      match entry.scenario with
      | some resolved =>
        let st1 : SwitchStorage F D :=
          { st with last_event_params := entry.scenario_data,
                    last_event_timestamp := some now,
                    last_event_duration := entry.duration }
        match resolved with
        | some f =>
          match invoke f entry.scenario_data with
          | Except.ok (some v) => (v, { st1 with last_event_scenario := some f })
          | Except.ok none => (rand, { st1 with last_event_scenario := some f })
          | Except.error _ => (rand, st1)
        | none => switchFallthrough invoke rand st1 now default_scenario default_scenario_data
      | none =>
        let st2 : SwitchStorage F D :=
          { st with last_event_scenario := none, last_event_duration := none,
                    last_event_timestamp := none }
        switchFallthrough invoke rand st2 now default_scenario default_scenario_data
    | none => switchFallthrough invoke rand st now default_scenario default_scenario_data
  | none => switchFallthrough invoke rand st now default_scenario default_scenario_data

/-- Scenario-invocation oracle that always raises, for the concrete
instances below. -/
def evFail : ℕ → Option ℕ → Except Unit (Option ℚ) := fun _ _ => Except.error ()

/-- Scenario-invocation oracle returning 42, for the concrete instances
below. -/
def evOk : ℕ → Option ℕ → Except Unit (Option ℚ) := fun _ _ => Except.ok (some 42)

/-- Concrete events_config entry: scenario resolving to 7, data 1, no
duration. -/
def entryC6 : EventEntry ℕ ℕ :=
  { scenario := some (some 7), scenario_data := some 1, duration := none }

/-- Empty switch storage (all keys absent). -/
def stC6 : SwitchStorage ℕ ℕ := ⟨none, none, none, none⟩

/-! ## size_to_bytes (src/core/emulation/utils.py, lines 38-65) -/

/-- Characters stripped by Python str.strip() (ASCII whitespace; the
strings handled by size_to_bytes are ASCII). -/
def spaceChars : List Char := [' ', '\t', '\n', '\r', '\x0b', '\x0c']

/-- Digits matched by the regex class of size_to_bytes (ASCII). -/
def digitChars : List Char := ['0', '1', '2', '3', '4', '5', '6', '7', '8', '9']

/-- Letters matched by the regex class [a-z] of size_to_bytes. -/
def lowerChars : List Char :=
  ['a', 'b', 'c', 'd', 'e', 'f', 'g', 'h', 'i', 'j', 'k', 'l', 'm',
   'n', 'o', 'p', 'q', 'r', 's', 't', 'u', 'v', 'w', 'x', 'y', 'z']

/-- Membership test for stripped whitespace. -/
def pyCharIsSpace (c : Char) : Bool := decide (c ∈ spaceChars)

/-- Membership test for the regex digit class. -/
def isDigitChar (c : Char) : Bool := decide (c ∈ digitChars)

/-- Membership test for the regex class [a-z]. -/
def isLowerChar (c : Char) : Bool := decide (c ∈ lowerChars)

/-- Python str.strip(): drop leading and trailing whitespace. -/
def stripChars (cs : List Char) : List Char :=
  ((cs.dropWhile pyCharIsSpace).reverse.dropWhile pyCharIsSpace).reverse

/-- Decimal digit string to natural number. -/
def digitsToNat (ds : List Char) : ℕ :=
  ds.foldl (fun n c => 10 * n + (c.toNat - 48)) 0

/-- The number part of the regex of size_to_bytes,
(backslash d)+((backslash .)(backslash d)+)? by maximal munch: a
non-empty digit run, optionally a dot followed by a non-empty digit run.
Returns the parsed value (exact rational, modelling Python float()) and
the remaining characters. -/
def parseNumber (cs : List Char) : Option (ℚ × List Char) :=
  let d1 := cs.takeWhile isDigitChar
  let r1 := cs.dropWhile isDigitChar
  if d1.isEmpty then none
  else
    match r1 with
    | c :: r2 =>
      if c = ('.') then
        let d2 := r2.takeWhile isDigitChar
        let r3 := r2.dropWhile isDigitChar
        if d2.isEmpty then none
        else some (((digitsToNat d1 : ℚ) + (digitsToNat d2 : ℚ) / (10 ^ d2.length : ℚ)), r3)
      else some ((digitsToNat d1 : ℚ), r1)
    | [] => some ((digitsToNat d1 : ℚ), r1)

/-- The full regex match of size_to_bytes on the normalized string:
number, optional whitespace, then a non-empty lowercase-letter unit
reaching the end of the string.  Returns the value and the unit
characters. -/
def matchSize (cs : List Char) : Option (ℚ × List Char) :=
  match parseNumber cs with
  | none => none
  | some (q, rest) =>
    let rest2 := rest.dropWhile pyCharIsSpace
    let u := rest2.takeWhile isLowerChar
    let r := rest2.dropWhile isLowerChar
    if u.isEmpty then none
    else if r.isEmpty then some (q, u) else none

/-- The BYTE_UNITS multiplier table of utils.py. -/
def BYTE_UNITS : List (String × ℤ) :=
  [("b", 1), ("byte", 1), ("bytes", 1),
   ("kb", 1024), ("kbyte", 1024), ("kbytes", 1024), ("kilobyte", 1024), ("kilobytes", 1024),
   ("mb", 1024 ^ 2), ("mbyte", 1024 ^ 2), ("mbytes", 1024 ^ 2), ("megabyte", 1024 ^ 2),
   ("megabytes", 1024 ^ 2),
   ("gb", 1024 ^ 3), ("gbyte", 1024 ^ 3), ("gbytes", 1024 ^ 3), ("gigabyte", 1024 ^ 3),
   ("gigabytes", 1024 ^ 3),
   ("tb", 1024 ^ 4), ("tbyte", 1024 ^ 4), ("tbytes", 1024 ^ 4), ("terabyte", 1024 ^ 4),
   ("terabytes", 1024 ^ 4),
   ("pb", 1024 ^ 5), ("pbyte", 1024 ^ 5), ("pbytes", 1024 ^ 5), ("petabyte", 1024 ^ 5),
   ("petabytes", 1024 ^ 5)]

/-- The BIT_UNITS multiplier table of utils.py. -/
def BIT_UNITS : List (String × ℤ) :=
  [("bit", 1), ("bits", 1),
   ("kbit", 1024), ("kbits", 1024), ("kilobit", 1024), ("kilobits", 1024),
   ("mbit", 1024 ^ 2), ("mbits", 1024 ^ 2), ("megabit", 1024 ^ 2), ("megabits", 1024 ^ 2),
   ("gbit", 1024 ^ 3), ("gbits", 1024 ^ 3), ("gigabit", 1024 ^ 3), ("gigabits", 1024 ^ 3),
   ("tbit", 1024 ^ 4), ("tbits", 1024 ^ 4), ("terabit", 1024 ^ 4), ("terabits", 1024 ^ 4),
   ("pbit", 1024 ^ 5), ("pbits", 1024 ^ 5), ("petabit", 1024 ^ 5), ("petabits", 1024 ^ 5)]

/-- Unit table lookup (Python dict membership by string key). -/
def unitLookup : List (String × ℤ) → String → Option ℤ
  | [], _ => none
  | (k, m) :: rest, u => if k = u then some m else unitLookup rest u

/-- A unit string is known when either table holds it. -/
def knownUnit (u : String) : Bool :=
  (unitLookup BYTE_UNITS u).isSome || (unitLookup BIT_UNITS u).isSome

/-- Normalization applied by size_to_bytes before matching:
size.lower().strip(). -/
def prepSize (s : String) : List Char := stripChars (s.data.map Char.toLower)

/-- Embedding of size_to_bytes.  A non-string argument is excluded by
the type; the empty string errors (Python falsy test); then the
normalized string must match the regex and the unit must be known.
int() truncation of the non-negative product is the floor. -/
def size_to_bytes (s : String) : Except String ℤ :=
  if s = ("") then Except.error ("Size must be a non-empty string")
  else
    match matchSize (prepSize s) with
    | none => Except.error ("Invalid size format")
    | some (q, u) =>
      match unitLookup BYTE_UNITS (String.mk u) with
      | some m => Except.ok (Rat.floor (q * (m : ℚ)))
      | none =>
        match unitLookup BIT_UNITS (String.mk u) with
        | some m => Except.ok (Rat.floor (q * (m : ℚ)))
        | none => Except.error ("Unsupported unit")

/-- Declarative reading of the accepted format, written against the
regex of utils.py line 47: the normalized character list splits into a
non-empty digit run, an optional fraction (a dot followed by a non-empty
digit run), optional whitespace, and a non-empty lowercase unit that
ends the string. -/
def SizeDecomp (cs d1 frac sp u : List Char) : Prop :=
  cs = d1 ++ frac ++ sp ++ u ∧
  d1 ≠ [] ∧ (∀ c ∈ d1, isDigitChar c = true) ∧
  (frac = [] ∨ ∃ d2, frac = ('.') :: d2 ∧ d2 ≠ [] ∧ (∀ c ∈ d2, isDigitChar c = true)) ∧
  (∀ c ∈ sp, pyCharIsSpace c = true) ∧
  u ≠ [] ∧ (∀ c ∈ u, isLowerChar c = true)

-- THEOREMS-BELOW

/-! ## Helper lemmas about rounding -/

theorem rat_floor_eq_int_floor (q : ℚ) : (Rat.floor q : ℤ) = ⌊q⌋ := by
  rw [Rat.floor_def, Rat.floor_def']

theorem roundHalfEven_bounds (q : ℚ) :
    ⌊q⌋ ≤ roundHalfEven q ∧ roundHalfEven q ≤ ⌈q⌉ := by
  unfold roundHalfEven
  rw [rat_floor_eq_int_floor]
  have hfc : ⌊q⌋ ≤ ⌈q⌉ := Int.floor_le_ceil q
  by_cases h1 : q - (⌊q⌋ : ℚ) < 1/2
  · simp only [h1, if_pos]
    exact ⟨le_refl _, hfc⟩
  · have hlt : (⌊q⌋ : ℚ) < q := by
      have h2 : (1:ℚ)/2 ≤ q - (⌊q⌋ : ℚ) := le_of_not_lt h1
      have : (0:ℚ) < q - (⌊q⌋ : ℚ) := lt_of_lt_of_le (by norm_num) h2
      linarith
    have hsucc : ⌊q⌋ + 1 ≤ ⌈q⌉ := by
      have : ⌊q⌋ < ⌈q⌉ := Int.lt_ceil.mpr hlt
      omega
    by_cases h2 : 1/2 < q - (⌊q⌋ : ℚ)
    · simp only [h1, h2, if_neg, if_pos, if_false]
      constructor
      · omega
      · exact hsucc
    · by_cases h3 : ⌊q⌋ % 2 = 0
      · simp only [h1, h2, h3, if_neg, if_pos, if_false]
        exact ⟨le_refl _, hfc⟩
      · simp only [h1, h2, h3, if_neg, if_false]
        constructor
        · omega
        · exact hsucc

theorem round2_lower (m q : ℚ) (hm : ∃ k : ℤ, (k : ℚ) = 100 * m) (h : m ≤ q) :
    m ≤ round2 q := by
  obtain ⟨k, hk⟩ := hm
  have h1 : (k : ℚ) ≤ 100 * q := by
    rw [hk]
    have : (0:ℚ) < 100 := by norm_num
    exact mul_le_mul_of_nonneg_left h (by norm_num)
  have h2 : k ≤ ⌊q * 100⌋ := Int.le_floor.mpr (by rw [mul_comm]; exact h1)
  have h3 : k ≤ roundHalfEven (q * 100) := le_trans h2 (roundHalfEven_bounds (q * 100)).1
  have h4 : (k : ℚ) ≤ (roundHalfEven (q * 100) : ℚ) := by exact_mod_cast h3
  unfold round2
  have h100 : (0:ℚ) < 100 := by norm_num
  rw [le_div_iff₀ h100]
  linarith

theorem round2_upper (M q : ℚ) (hM : ∃ k : ℤ, (k : ℚ) = 100 * M) (h : q ≤ M) :
    round2 q ≤ M := by
  obtain ⟨k, hk⟩ := hM
  have h1 : 100 * q ≤ (k : ℚ) := by
    rw [hk]
    exact mul_le_mul_of_nonneg_left h (by norm_num)
  have h2 : ⌈q * 100⌉ ≤ k := Int.ceil_le.mpr (by rw [mul_comm]; exact h1)
  have h3 : roundHalfEven (q * 100) ≤ k := le_trans (roundHalfEven_bounds (q * 100)).2 h2
  have h4 : (roundHalfEven (q * 100) : ℚ) ≤ (k : ℚ) := by exact_mod_cast h3
  unfold round2
  have h100 : (0:ℚ) < 100 := by norm_num
  rw [div_le_iff₀ h100]
  linarith

theorem clampToRange_mem (vr : ℚ × ℚ) (v : ℚ) (h : vr.1 ≤ vr.2) :
    vr.1 ≤ clampToRange vr v ∧ clampToRange vr v ≤ vr.2 := by
  unfold clampToRange
  by_cases h1 : v < vr.1
  · simp only [h1, if_pos]
    exact ⟨le_refl _, h⟩
  · by_cases h2 : vr.2 < v
    · simp only [h1, h2, if_neg, if_pos, if_false]
      exact ⟨h, le_refl _⟩
    · simp only [h1, h2, if_neg, if_false]
      exact ⟨le_of_not_lt h1, le_of_not_lt h2⟩

/-! ## Claims C10, C2, C1 about update_value -/

/-- Claim C10: an invocation of update_value with a non-nil event skips all
three time gates (start gate, ttl gate, update-interval gate): for every
current time, even before the start timestamp or after start + ttl, the
scenario result is clamped, rounded, stored and returned, and last_update
is left unchanged. -/
theorem update_value_event_bypass (cfg : MetricConfig) (startTimestamp : ℚ)
    (st : MetricState) (now : ℚ) (scenRes : Option ℚ) :
    update_value cfg startTimestamp st now true scenRes =
      (clampRound cfg.value_range scenRes,
       { value := clampRound cfg.value_range scenRes, lastUpdate := st.lastUpdate }) := rfl

/-- Claim C2: with no event, after the start time and within the TTL,
a call earlier than update_interval after last_update returns the current
value and leaves the state unchanged; a call at or after the boundary
computes a fresh clamped, rounded value and sets last_update to now; and
event-driven invocations never modify last_update. -/
theorem update_value_time_gates (cfg : MetricConfig) (startTimestamp : ℚ)
    (st : MetricState) (now : ℚ) (scenRes : Option ℚ)
    (hstart : startTimestamp ≤ now)
    (httl : ttlExpired cfg.ttl startTimestamp now = false) :
    (now - st.lastUpdate < cfg.update_interval →
      update_value cfg startTimestamp st now false scenRes = (st.value, st)) ∧
    (cfg.update_interval ≤ now - st.lastUpdate →
      update_value cfg startTimestamp st now false scenRes =
        (clampRound cfg.value_range scenRes,
         { value := clampRound cfg.value_range scenRes, lastUpdate := now })) ∧
    (∀ (st2 : MetricState) (now2 : ℚ) (scen2 : Option ℚ),
      (update_value cfg startTimestamp st2 now2 true scen2).2.lastUpdate = st2.lastUpdate) := by
  refine ⟨?_, ?_, ?_⟩
  · intro hlt
    unfold update_value
    rw [if_neg Bool.false_ne_true, if_neg (not_lt.mpr hstart)]
    rw [httl]
    rw [if_neg Bool.false_ne_true, if_pos hlt]
  · intro hge
    unfold update_value
    rw [if_neg Bool.false_ne_true, if_neg (not_lt.mpr hstart)]
    rw [httl]
    rw [if_neg Bool.false_ne_true, if_neg (not_lt.mpr hge)]
  · intro st2 now2 scen2
    rfl

/-- Witness for C2 at the exact update_interval boundary: interval 10,
last_update 100, now 110 computes a fresh value (200 clamped to 100) and
sets last_update to 110. -/
theorem update_value_time_gates_witness :
    update_value cfgStd 50 ⟨some 5, 100⟩ 110 false (some 200) =
      (some 100, ⟨some 100, 110⟩) := by
  have h := (update_value_time_gates cfgStd 50 ⟨some 5, 100⟩ 110 (some 200)
      (by norm_num) (by with_unfolding_all rfl)).2.1 (by norm_num [cfgStd])
  exact h.trans (by with_unfolding_all rfl)

/-- Counterexample to claim C1 as stated: with value_range (1/3, 1) the
scenario result 0 is clamped to 1/3 and then rounded to 0.33, which lies
strictly below the range minimum, so a non-nil returned value can escape
[value_range.min, value_range.max]. -/
theorem update_value_range_counterexample :
    (update_value cfgThird 0 ⟨none, 0⟩ 0 true (some 0)).1 = some (33/100) ∧
    ¬ (cfgThird.value_range.1 ≤ 33/100) := by
  constructor
  · with_unfolding_all rfl
  · simp only [cfgThird]
    norm_num

/-- Claim C1 as amended: on every invocation of update_value that reaches
the scenario-computing path, the returned value is the scenario result
clamped to value_range and then rounded to 2 decimal places; when both
endpoints of value_range are exactly representable at 2 decimal places
(100·min and 100·max are integers), every non-nil returned value lies in
the inclusive range [value_range.min, value_range.max]. -/
theorem update_value_range_amended (cfg : MetricConfig) (startTimestamp : ℚ)
    (st : MetricState) (now : ℚ) (eventPresent : Bool) (scenRes : Option ℚ)
    (hmin : ∃ k : ℤ, (k : ℚ) = 100 * cfg.value_range.1)
    (hmax : ∃ k : ℤ, (k : ℚ) = 100 * cfg.value_range.2)
    (hrange : cfg.value_range.1 ≤ cfg.value_range.2)
    (hpath : eventPresent = true ∨
      (startTimestamp ≤ now ∧ ttlExpired cfg.ttl startTimestamp now = false ∧
       cfg.update_interval ≤ now - st.lastUpdate)) :
    (update_value cfg startTimestamp st now eventPresent scenRes).1 =
      clampRound cfg.value_range scenRes ∧
    (∀ v, (update_value cfg startTimestamp st now eventPresent scenRes).1 = some v →
      cfg.value_range.1 ≤ v ∧ v ≤ cfg.value_range.2) := by
  have h1 : (update_value cfg startTimestamp st now eventPresent scenRes).1 =
      clampRound cfg.value_range scenRes := by
    cases eventPresent with
    | true => rfl
    | false =>
      rcases hpath with he | ⟨hs, ht, hi⟩
      · exact absurd he Bool.false_ne_true
      · unfold update_value
        rw [if_neg Bool.false_ne_true, if_neg (not_lt.mpr hs)]
        rw [ht]
        rw [if_neg Bool.false_ne_true, if_neg (not_lt.mpr hi)]
  refine ⟨h1, ?_⟩
  intro v hv
  rw [h1] at hv
  unfold clampRound at hv
  rcases Option.map_eq_some'.mp hv with ⟨x, _, hx⟩
  have hc := clampToRange_mem cfg.value_range x hrange
  constructor
  · rw [← hx]
    exact round2_lower cfg.value_range.1 (clampToRange cfg.value_range x) hmin hc.1
  · rw [← hx]
    exact round2_upper cfg.value_range.2 (clampToRange cfg.value_range x) hmax hc.2

/-- Witness for the amended C1: a computed value (scenario result 1/3 on
range [0, 100], stored as 0.33) lies within the range. -/
theorem update_value_range_amended_witness :
    (0:ℚ) ≤ 33/100 ∧ (33:ℚ)/100 ≤ 100 := by
  have h := (update_value_range_amended cfgStd 50 ⟨none, 0⟩ 0 true (some (1/3))
      ⟨0, by norm_num [cfgStd]⟩ ⟨10000, by norm_num [cfgStd]⟩ (by norm_num [cfgStd])
      (Or.inl rfl)).2 (33/100) (by with_unfolding_all rfl)
  simpa [cfgStd] using h

/-! ## Claim C3 about the host counter accumulation -/

theorem counterSeries_mono_aux (name : String) (vals : List (Option ℚ)) :
    ∀ stor : Option ℚ, (∀ x : ℚ, some x ∈ vals → 0 ≤ x) →
      List.Chain' (· ≤ ·) (counterSeries name stor vals) ∧
      (∀ y ∈ counterSeries name stor vals, stor.getD 0 ≤ y) := by
  induction vals with
  | nil =>
    intro stor _
    simp [counterSeries]
  | cons v vs ih =>
    intro stor hnn
    cases v with
    | none =>
      have h := ih stor (fun x hx => hnn x (List.mem_cons_of_mem _ hx))
      simpa [counterSeries, update_metrics] using h
    | some x =>
      have hx : 0 ≤ x := hnn x (List.mem_cons_self _ _)
      have h := ih (some (stor.getD 0 + x))
        (fun y hy => hnn y (List.mem_cons_of_mem _ hy))
      have hser : counterSeries name stor (some x :: vs) =
          (stor.getD 0 + x) :: counterSeries name (some (stor.getD 0 + x)) vs := by
        simp [counterSeries, update_metrics]
      rw [hser]
      constructor
      · rw [List.chain'_cons']
        constructor
        · intro b hb
          have hbmem : b ∈ counterSeries name (some (stor.getD 0 + x)) vs :=
            List.mem_of_mem_head? hb
          have := h.2 b hbmem
          simpa using this
        · exact h.1
      · intro y hy
        rcases List.mem_cons.mp hy with h1 | h1
        · subst h1
          linarith
        · have := h.2 y h1
          simp only [Option.getD_some] at this
          linarith

/-- Claim C3: for a Counter metric with a non-nil tick value, the host
batch publishes the stored counter_total (default 0) incremented by the
tick's value and persists the new total; when every per-tick value is
non-negative the published series over a host lifetime is non-decreasing;
a negative tick value still accumulates, publishing a decrease. -/
theorem counter_accumulation_spec :
    (∀ (name : String) (stor : Option ℚ) (v : ℚ) (ms : List HostMetric),
      update_metrics ({ name := name, metric_type := MetricType.counter,
                        counter_total := stor, tickValue := some v } :: ms) =
        ((name, stor.getD 0 + v) :: (update_metrics ms).1,
         { name := name, metric_type := MetricType.counter,
           counter_total := some (stor.getD 0 + v),
           tickValue := some v } :: (update_metrics ms).2)) ∧
    (∀ (name : String) (vals : List (Option ℚ)),
      (∀ x : ℚ, some x ∈ vals → 0 ≤ x) →
        List.Chain' (· ≤ ·) (counterSeries name none vals)) ∧
    (∀ (stor : Option ℚ) (v : ℚ), v < 0 → stor.getD 0 + v < stor.getD 0) := by
  refine ⟨?_, ?_, ?_⟩
  · intro name stor v ms
    rfl
  · intro name vals hnn
    exact (counterSeries_mono_aux name vals none hnn).1
  · intro stor v hv
    linarith

/-- Witness for C3: the published series of a counter receiving tick
values 2, nil, 3 is non-decreasing. -/
theorem counter_accumulation_witness :
    List.Chain' (· ≤ ·) (counterSeries ("c") none [some 2, none, some 3]) := by
  refine counter_accumulation_spec.2.1 ("c") [some 2, none, some 3] ?_
  intro x hx
  simp only [List.mem_cons, List.not_mem_nil, or_false] at hx
  rcases hx with h | h | h
  · rw [Option.some_inj.mp h]
    norm_num
  · exact absurd h (by simp)
  · rw [Option.some_inj.mp h]
    norm_num

/-! ## Claim C4 about the mixer duplicate detection -/

theorem setEntry_getEntry_self {L : Type} (reg : List (String × MixEntry L))
    (host : String) (e : MixEntry L) :
    getEntry (setEntry reg host e) host = some e := by
  induction reg with
  | nil => simp [setEntry, getEntry]
  | cons p rest ih =>
    obtain ⟨k, e0⟩ := p
    by_cases hk : k = host
    · simp [setEntry, hk, getEntry]
    · simp only [setEntry, hk, if_false]
      simp only [getEntry]
      rw [if_neg hk]
      exact ih

theorem setEntry_getEntry_other {L : Type} (reg : List (String × MixEntry L))
    (host : String) (e : MixEntry L) (h : String) (hne : h ≠ host) :
    getEntry (setEntry reg host e) h = getEntry reg h := by
  induction reg with
  | nil =>
    simp only [setEntry, getEntry]
    rw [if_neg (fun hc => hne hc.symm)]
  | cons p rest ih =>
    obtain ⟨k, e0⟩ := p
    by_cases hk : k = host
    · subst hk
      simp only [setEntry, if_pos rfl]
      simp only [getEntry]
      rw [if_neg (fun hc => hne hc.symm), if_neg (fun hc => hne hc.symm)]
    · simp only [setEntry, hk, if_false]
      simp only [getEntry]
      by_cases hhk : k = h
      · rw [if_pos hhk, if_pos hhk]
      · rw [if_neg hhk, if_neg hhk]
        exact ih

/-- Claim C4: for a batch entry delivered to the mixer, the new
{value, labels, timestamp} record is always stored under the sending
host's key (overwriting that host's previous entry, never dropped), no
other host's entry changes, and a duplicate warning is logged exactly
when some other host already stores an entry with an identical label
map. -/
theorem mixer_duplicate_spec {L : Type} [DecidableEq L]
    (reg : List (String × MixEntry L)) (host : String) (labels : L)
    (value now : ℚ) :
    getEntry (update_metrics_by_host_entry reg host labels value now).2 host =
      some { value := value, labels := labels, timestamp := now } ∧
    (∀ h : String, h ≠ host →
      getEntry (update_metrics_by_host_entry reg host labels value now).2 h =
        getEntry reg h) ∧
    ((update_metrics_by_host_entry reg host labels value now).1 = true ↔
      ∃ p ∈ reg, p.1 ≠ host ∧ p.2.labels = labels) := by
  refine ⟨?_, ?_, ?_⟩
  · exact setEntry_getEntry_self reg host _
  · intro h hne
    exact setEntry_getEntry_other reg host _ h hne
  · unfold update_metrics_by_host_entry
    rw [List.any_eq_true]
    constructor
    · rintro ⟨p, hp, hf⟩
      rw [Bool.and_eq_true, decide_eq_true_iff, decide_eq_true_iff] at hf
      exact ⟨p, hp, hf.1, hf.2⟩
    · rintro ⟨p, hp, h1, h2⟩
      refine ⟨p, hp, ?_⟩
      rw [Bool.and_eq_true, decide_eq_true_iff, decide_eq_true_iff]
      exact ⟨h1, h2⟩

/-- Witness for C4: host h2 sends a metric whose labels coincide with
h1's stored entry; the warning fires and h2's entry is stored. -/
theorem mixer_duplicate_witness :
    getEntry
        (update_metrics_by_host_entry [(("h1"), ⟨5, (7:ℕ), 0⟩)] ("h2") 7 6 1).2
        ("h2") =
      some ⟨6, 7, 1⟩ ∧
    (update_metrics_by_host_entry [(("h1"), ⟨5, (7:ℕ), 0⟩)] ("h2") 7 6 1).1 = true := by
  have h := mixer_duplicate_spec [(("h1"), ⟨5, (7:ℕ), 0⟩)] ("h2") 7 6 1
  refine ⟨h.1, h.2.2.mpr ⟨(("h1"), ⟨5, 7, 0⟩), ?_, ?_, rfl⟩⟩
  · exact List.mem_singleton.mpr rfl
  · decide

/-! ## Claim C5 about feature_toggle -/

theorem feature_toggle_first_call (fa : Bool)
    (now start_time duration interval on_value off_value : ℚ) :
    feature_toggle ⟨none, fa⟩ now start_time duration interval on_value off_value =
      feature_toggle ⟨some now, fa⟩ now start_time duration interval on_value off_value := rfl

theorem feature_toggle_some_spec (fa : Bool)
    (t now start_time duration interval on_value off_value : ℚ)
    (h0 : 0 ≤ start_time) (h1 : 0 < duration) (h2 : 0 < interval) :
    (now - t < start_time →
      feature_toggle ⟨some t, fa⟩ now start_time duration interval on_value off_value =
        Except.ok (off_value, none, ⟨some t, fa⟩)) ∧
    (start_time ≤ now - t →
      feature_toggle ⟨some t, fa⟩ now start_time duration interval on_value off_value =
        Except.ok
          ((if toggleIsOn (now - t) start_time duration interval
            then on_value else off_value),
           (if toggleIsOn (now - t) start_time duration interval = fa then none
            else if toggleIsOn (now - t) start_time duration interval
            then some FeatureEvent.feature_on else some FeatureEvent.feature_off),
           ⟨some t, toggleIsOn (now - t) start_time duration interval⟩)) := by
  have hval : ¬(start_time < 0 ∨ duration ≤ 0 ∨ interval ≤ 0) := by
    push_neg
    exact ⟨h0, h1, h2⟩
  constructor
  · intro hpre
    unfold feature_toggle
    rw [if_neg hval]
    simp only [Option.getD_some]
    rw [if_pos hpre]
  · intro hpost
    unfold feature_toggle
    rw [if_neg hval]
    simp only [Option.getD_some]
    rw [if_neg (not_lt.mpr hpost)]
    by_cases heq : toggleIsOn (now - t) start_time duration interval = fa
    · rw [if_neg (fun hc => hc heq), if_pos heq, ← heq]
    · rw [if_pos heq, if_neg heq, apply_ite Option.some]

/-- Claim C5: with valid parameters, feature_toggle returns off_value
while elapsed = now - start_timestamp (stored on the first call) is below
start_time, with no event and no flag change; once elapsed reaches
start_time it returns on_value exactly when the cycle position
(elapsed - start_time) mod (duration + interval) is below duration,
stores that on/off state, and emits exactly one feature_on (on a
transition to on) or feature_off (on a transition to off) event, with no
emission when the state is unchanged since the previous call. -/
theorem feature_toggle_spec (st : ToggleState)
    (now start_time duration interval on_value off_value : ℚ)
    (h0 : 0 ≤ start_time) (h1 : 0 < duration) (h2 : 0 < interval) :
    (now - st.start_timestamp.getD now < start_time →
      feature_toggle st now start_time duration interval on_value off_value =
        Except.ok (off_value, none,
          ⟨some (st.start_timestamp.getD now), st.feature_active⟩)) ∧
    (start_time ≤ now - st.start_timestamp.getD now →
      feature_toggle st now start_time duration interval on_value off_value =
        Except.ok
          ((if toggleIsOn (now - st.start_timestamp.getD now) start_time duration interval
            then on_value else off_value),
           (if toggleIsOn (now - st.start_timestamp.getD now) start_time duration interval
              = st.feature_active then none
            else if toggleIsOn (now - st.start_timestamp.getD now) start_time duration interval
            then some FeatureEvent.feature_on else some FeatureEvent.feature_off),
           ⟨some (st.start_timestamp.getD now),
            toggleIsOn (now - st.start_timestamp.getD now) start_time duration interval⟩)) := by
  obtain ⟨sts, fa⟩ := st
  cases sts with
  | none =>
    simp only [Option.getD_none]
    constructor
    · intro hpre
      rw [feature_toggle_first_call]
      exact (feature_toggle_some_spec fa now now start_time duration interval
        on_value off_value h0 h1 h2).1 hpre
    · intro hpost
      rw [feature_toggle_first_call]
      exact (feature_toggle_some_spec fa now now start_time duration interval
        on_value off_value h0 h1 h2).2 hpost
  | some t =>
    simp only [Option.getD_some]
    exact feature_toggle_some_spec fa t now start_time duration interval
      on_value off_value h0 h1 h2

/-- Witness for C5, the spec's concrete toggle scenario: start at 1000,
start_time 10, duration 20, interval 10; the call at 1015 is in the on
phase, transitions the stored flag from off to on, emits feature_on and
returns on_value 1. -/
theorem feature_toggle_witness :
    feature_toggle ⟨some 1000, false⟩ 1015 10 20 10 1 0 =
      Except.ok (1, some FeatureEvent.feature_on, ⟨some 1000, true⟩) := by
  have h := (feature_toggle_spec ⟨some 1000, false⟩ 1015 10 20 10 1 0
      (by norm_num) (by norm_num) (by norm_num)).2 (by norm_num)
  exact h.trans (by with_unfolding_all rfl)

/-! ## Claim C7 about update_by_trend -/

/-- Claim C7: with a valid step_range (0 ≤ min ≤ max) and a defined
accumulated_value a (from storage, defaulting to ctx.value), trend "up"
returns a plus a uniform draw in [min, max] and persists the sum; trend
"down" returns a plus a uniform draw in [-max, -min] and persists it;
trend "hold" returns a plus a uniform draw in [-min, max] and leaves the
accumulated_value storage unchanged; any other trend string produces an
error and leaves the storage unchanged. -/
theorem update_by_trend_spec (uniform : ℚ → ℚ → ℚ) (stor ctxValue : Option ℚ)
    (step_range : ℚ × ℚ) (a : ℚ)
    (hmin : 0 ≤ step_range.1) (hle : step_range.1 ≤ step_range.2)
    (hacc : (match stor with | some x => some x | none => ctxValue) = some a)
    (hu : ∀ x y : ℚ, x ≤ y → x ≤ uniform x y ∧ uniform x y ≤ y) :
    (update_by_trend uniform stor ctxValue ("up") step_range =
       (Except.ok (a + uniform step_range.1 step_range.2),
        some (a + uniform step_range.1 step_range.2)) ∧
     step_range.1 ≤ uniform step_range.1 step_range.2 ∧
     uniform step_range.1 step_range.2 ≤ step_range.2) ∧
    (update_by_trend uniform stor ctxValue ("down") step_range =
       (Except.ok (a + uniform (-step_range.2) (-step_range.1)),
        some (a + uniform (-step_range.2) (-step_range.1))) ∧
     -step_range.2 ≤ uniform (-step_range.2) (-step_range.1) ∧
     uniform (-step_range.2) (-step_range.1) ≤ -step_range.1) ∧
    (update_by_trend uniform stor ctxValue ("hold") step_range =
       (Except.ok (a + uniform (-step_range.1) step_range.2), stor) ∧
     -step_range.1 ≤ uniform (-step_range.1) step_range.2 ∧
     uniform (-step_range.1) step_range.2 ≤ step_range.2) ∧
    (∀ t : String, t ≠ ("up") → t ≠ ("down") → t ≠ ("hold") →
      (update_by_trend uniform stor ctxValue t step_range).2 = stor ∧
      ∃ msg, (update_by_trend uniform stor ctxValue t step_range).1 =
        Except.error msg) := by
  have hval : ¬(step_range.1 < 0 ∨ step_range.2 < 0 ∨ step_range.2 < step_range.1) := by
    push_neg
    exact ⟨hmin, le_trans hmin hle, hle⟩
  have hdn : -step_range.2 ≤ -step_range.1 := neg_le_neg hle
  have hhd : -step_range.1 ≤ step_range.2 :=
    le_trans (neg_nonpos.mpr hmin) (le_trans hmin hle)
  refine ⟨?_, ?_, ?_, ?_⟩
  · refine ⟨?_, hu step_range.1 step_range.2 hle⟩
    unfold update_by_trend
    rw [if_neg hval]
    rw [hacc]
    rw [if_pos rfl]
  · refine ⟨?_, hu (-step_range.2) (-step_range.1) hdn⟩
    unfold update_by_trend
    rw [if_neg hval]
    rw [hacc]
    rw [if_neg (by decide), if_pos rfl]
  · refine ⟨?_, hu (-step_range.1) step_range.2 hhd⟩
    unfold update_by_trend
    rw [if_neg hval]
    rw [hacc]
    rw [if_neg (by decide), if_neg (by decide), if_pos rfl]
  · intro t hup hdown hhold
    unfold update_by_trend
    rw [if_neg hval]
    rw [if_neg hup, if_neg hdown, if_neg hhold]
    exact ⟨rfl, _, rfl⟩

/-- Witness for C7, the spec's concrete trend scenario shape: initial
value 50, step_range (1, 5), a deterministic uniform oracle returning
its lower bound; trend "up" returns 51 and persists 51. -/
theorem update_by_trend_witness :
    update_by_trend (fun x _ => x) none (some 50) ("up") (1, 5) =
      (Except.ok 51, some 51) := by
  have h := (update_by_trend_spec (fun x _ => x) none (some 50) (1, 5) 50
      (by norm_num) (by norm_num) rfl (fun x y hxy => ⟨le_refl x, hxy⟩)).1.1
  exact h.trans (by with_unfolding_all rfl)

/-! ## Claim C9 about calc_percent_usage -/

/-- Claim C9: calc_percent_usage returns nil for a nil value; for
min < max it returns ((clamped - min)/(max - min))·100 with the value
clamped into [min, max], hence 0 for any value below min and 100 for any
value above max, and it is invariant under clamping its input; for
min ≥ max on a non-nil value it raises an error. -/
theorem calc_percent_usage_spec (vr : ℚ × ℚ) (h : vr.1 < vr.2) :
    calc_percent_usage none vr = Except.ok none ∧
    (∀ v : ℚ, calc_percent_usage (some v) vr =
      Except.ok (some ((max vr.1 (min vr.2 v) - vr.1) / (vr.2 - vr.1) * 100))) ∧
    (∀ v : ℚ, v < vr.1 → calc_percent_usage (some v) vr = Except.ok (some 0)) ∧
    (∀ v : ℚ, vr.2 < v → calc_percent_usage (some v) vr = Except.ok (some 100)) ∧
    (∀ v : ℚ, calc_percent_usage (some (max vr.1 (min vr.2 v))) vr =
      calc_percent_usage (some v) vr) ∧
    (∀ m M v : ℚ, M ≤ m →
      ∃ msg, calc_percent_usage (some v) (m, M) = Except.error msg) := by
  have hne : ¬(vr.2 ≤ vr.1) := not_le.mpr h
  have hgen : ∀ v : ℚ, calc_percent_usage (some v) vr =
      Except.ok (some ((max vr.1 (min vr.2 v) - vr.1) / (vr.2 - vr.1) * 100)) := by
    intro v
    simp only [calc_percent_usage]
    rw [if_neg hne]
  refine ⟨rfl, hgen, ?_, ?_, ?_, ?_⟩
  · intro v hv
    rw [hgen v]
    have h1 : min vr.2 v = v := min_eq_right (le_of_lt (lt_trans hv h))
    have h2 : max vr.1 v = vr.1 := max_eq_left (le_of_lt hv)
    rw [h1, h2]
    simp
  · intro v hv
    rw [hgen v]
    have h1 : min vr.2 v = vr.2 := min_eq_left (le_of_lt hv)
    have h2 : max vr.1 vr.2 = vr.2 := max_eq_right (le_of_lt h)
    rw [h1, h2]
    rw [div_self (by linarith)]
    norm_num
  · intro v
    rw [hgen v, hgen (max vr.1 (min vr.2 v))]
    have hc1 : vr.1 ≤ max vr.1 (min vr.2 v) := le_max_left _ _
    have hc2 : max vr.1 (min vr.2 v) ≤ vr.2 :=
      max_le (le_of_lt h) (min_le_left _ _)
    rw [min_eq_right hc2, max_eq_right hc1]
  · intro m M v hMm
    simp only [calc_percent_usage]
    rw [if_pos hMm]
    exact ⟨_, rfl⟩

/-- Witness for C9: on range (0, 200) the value 250 is clamped to the
maximum and reports 100 percent. -/
theorem calc_percent_usage_witness :
    calc_percent_usage (some 250) (0, 200) = Except.ok (some 100) :=
  (calc_percent_usage_spec (0, 200) (by norm_num)).2.2.2.1 250 (by norm_num)

/-! ## Claim C6 about switch_scenario_by_events -/

/-- Counterexample to claim C6 as stated: the event matches an entry
with a resolvable scenario, the invocation raises, the uniform sample is
returned, but last_event_scenario has NOT been persisted: the code sets
it only after a successful invocation (scenarios.py line 261 runs inside
the try block after the call), so it keeps its previous value (here
none, not the matched scenario 7). -/
theorem switch_scenario_event_counterexample :
    (switch_scenario_by_events evFail 5 stC6 100 (some ("boom"))
        [(("boom"), entryC6)] none none).1 = 5 ∧
    (switch_scenario_by_events evFail 5 stC6 100 (some ("boom"))
        [(("boom"), entryC6)] none none).2.last_event_scenario = none ∧
    ¬ ((switch_scenario_by_events evFail 5 stC6 100 (some ("boom"))
        [(("boom"), entryC6)] none none).2.last_event_scenario = some 7) := by
  refine ⟨rfl, rfl, ?_⟩
  intro hc
  have h : (none : Option ℕ) = some 7 := by
    rw [← hc]
    rfl
  exact Option.noConfusion h

/-- Claim C6 as amended: when ctx.event matches an events_config key
whose entry carries a resolvable scenario fn, the call persists
last_event_params = data, last_event_timestamp = now and
last_event_duration (or nil), invokes fn(ctx, **data) and returns its
value, persisting last_event_scenario = fn on success; if the invocation
itself raises, it logs and returns a uniform sample in the value range
with last_event_scenario left unchanged (not persisted); if only the
float conversion of the returned value fails, the sample is returned but
last_event_scenario is still persisted. -/
theorem switch_scenario_event_spec {F D : Type}
    (invoke : F → Option D → Except Unit (Option ℚ)) (rand : ℚ)
    (st : SwitchStorage F D) (now : ℚ) (e : String)
    (events_config : List (String × EventEntry F D))
    (default_scenario : Option (Option F)) (default_scenario_data : Option D)
    (entry : EventEntry F D) (f : F)
    (hlook : lookupEntry events_config e = some entry)
    (hres : entry.scenario = some (some f)) :
    switch_scenario_by_events invoke rand st now (some e) events_config
        default_scenario default_scenario_data =
      (match invoke f entry.scenario_data with
       | Except.ok (some v) =>
         (v, ⟨entry.scenario_data, some now, entry.duration, some f⟩)
       | Except.ok none =>
         (rand, ⟨entry.scenario_data, some now, entry.duration, some f⟩)
       | Except.error _ =>
         (rand, ⟨entry.scenario_data, some now, entry.duration,
                 st.last_event_scenario⟩)) := by
  simp only [switch_scenario_by_events, hlook, hres]

/-- Witness for the amended C6: a successful invocation returns the
scenario value 42 and persists all four last_event keys. -/
theorem switch_scenario_event_witness :
    switch_scenario_by_events evOk 5 stC6 100 (some ("go"))
        [(("go"), entryC6)] none none =
      (42, ⟨some 1, some 100, none, some 7⟩) := by
  have h := switch_scenario_event_spec evOk 5 stC6 100 ("go")
    [(("go"), entryC6)] none none entryC6 7 rfl rfl
  exact h.trans rfl

/-! ## Claim C8 about size_to_bytes: helper lemmas -/

theorem takeWhile_append_all {α : Type} (p : α → Bool) (a b : List α)
    (ha : ∀ c ∈ a, p c = true) (hb : ∀ c, b.head? = some c → p c = false) :
    (a ++ b).takeWhile p = a ∧ (a ++ b).dropWhile p = b := by
  induction a with
  | nil =>
    simp only [List.nil_append]
    cases b with
    | nil => simp
    | cons c bs =>
      have hc : p c = false := hb c rfl
      constructor
      · rw [List.takeWhile_cons_of_neg (by simp [hc])]
      · rw [List.dropWhile_cons_of_neg (by simp [hc])]
  | cons x xs ih =>
    have hx : p x = true := ha x (List.mem_cons_self x xs)
    obtain ⟨h1, h2⟩ := ih (fun c hc => ha c (List.mem_cons_of_mem _ hc))
    constructor
    · rw [List.cons_append, List.takeWhile_cons_of_pos hx, h1]
    · rw [List.cons_append, List.dropWhile_cons_of_pos hx, h2]

theorem spaceChar_facts (c : Char) (h : pyCharIsSpace c = true) :
    isDigitChar c = false ∧ isLowerChar c = false ∧ c ≠ ('.') := by
  have hm : c ∈ spaceChars := of_decide_eq_true h
  fin_cases hm <;> exact ⟨by decide, by decide, by decide⟩

theorem lowerChar_facts (c : Char) (h : isLowerChar c = true) :
    isDigitChar c = false ∧ pyCharIsSpace c = false ∧ c ≠ ('.') := by
  have hm : c ∈ lowerChars := of_decide_eq_true h
  fin_cases hm <;> exact ⟨by decide, by decide, by decide⟩

theorem isEmpty_false_of_ne_nil {α : Type} {l : List α} (h : l ≠ []) :
    l.isEmpty = false := by
  cases l with
  | nil => exact absurd rfl h
  | cons x xs => rfl

theorem parseNumber_sound (cs : List Char) (q : ℚ) (rest : List Char)
    (h : parseNumber cs = some (q, rest)) :
    ∃ d1 frac, cs = d1 ++ frac ++ rest ∧ d1 ≠ [] ∧
      (∀ c ∈ d1, isDigitChar c = true) ∧
      (frac = [] ∨ ∃ d2, frac = ('.') :: d2 ∧ d2 ≠ [] ∧
        (∀ c ∈ d2, isDigitChar c = true)) := by
  simp only [parseNumber] at h
  by_cases he : (cs.takeWhile isDigitChar).isEmpty = true
  · rw [if_pos he] at h
    exact Option.noConfusion h
  · rw [if_neg he] at h
    have hne : cs.takeWhile isDigitChar ≠ [] := by
      intro hc
      exact he (by rw [hc]; rfl)
    have hdig : ∀ c ∈ cs.takeWhile isDigitChar, isDigitChar c = true :=
      fun c hc => List.mem_takeWhile_imp hc
    have hsplit : cs.takeWhile isDigitChar ++ cs.dropWhile isDigitChar = cs :=
      List.takeWhile_append_dropWhile isDigitChar cs
    cases hr : cs.dropWhile isDigitChar with
    | nil =>
      rw [hr] at h
      simp only [Option.some.injEq, Prod.mk.injEq] at h
      refine ⟨cs.takeWhile isDigitChar, [], ?_, hne, hdig, Or.inl rfl⟩
      rw [← h.2]
      simp only [List.append_nil, List.nil_append]
      exact hsplit.symm.trans (by rw [hr, List.append_nil])
    | cons c r2 =>
      rw [hr] at h
      simp only at h
      by_cases hc : c = ('.')
      · rw [if_pos hc] at h
        by_cases hd2 : (r2.takeWhile isDigitChar).isEmpty = true
        · rw [if_pos hd2] at h
          exact Option.noConfusion h
        · rw [if_neg hd2] at h
          simp only [Option.some.injEq, Prod.mk.injEq] at h
          have hd2ne : r2.takeWhile isDigitChar ≠ [] := by
            intro hx
            exact hd2 (by rw [hx]; rfl)
          refine ⟨cs.takeWhile isDigitChar, ('.') :: r2.takeWhile isDigitChar, ?_, hne, hdig,
            Or.inr ⟨r2.takeWhile isDigitChar, rfl, hd2ne,
              fun x hx => List.mem_takeWhile_imp hx⟩⟩
          rw [← h.2]
          have hr2 : r2.takeWhile isDigitChar ++ r2.dropWhile isDigitChar = r2 :=
            List.takeWhile_append_dropWhile isDigitChar r2
          calc cs = cs.takeWhile isDigitChar ++ cs.dropWhile isDigitChar := hsplit.symm
            _ = cs.takeWhile isDigitChar ++ (c :: r2) := by rw [hr]
            _ = cs.takeWhile isDigitChar ++
                ((('.') :: r2.takeWhile isDigitChar) ++ r2.dropWhile isDigitChar) := by
                rw [hc, List.cons_append, hr2]
            _ = cs.takeWhile isDigitChar ++ (('.') :: r2.takeWhile isDigitChar) ++
                r2.dropWhile isDigitChar := by rw [List.append_assoc]
      · rw [if_neg hc] at h
        simp only [Option.some.injEq, Prod.mk.injEq] at h
        refine ⟨cs.takeWhile isDigitChar, [], ?_, hne, hdig, Or.inl rfl⟩
        rw [← h.2]
        simp only [List.append_nil]
        rw [← hr]
        exact hsplit.symm

theorem matchSize_sound (cs : List Char) (q : ℚ) (u : List Char)
    (h : matchSize cs = some (q, u)) :
    ∃ d1 frac sp, SizeDecomp cs d1 frac sp u := by
  simp only [matchSize] at h
  cases hp : parseNumber cs with
  | none =>
    rw [hp] at h
    exact Option.noConfusion h
  | some pr =>
    obtain ⟨q0, rest⟩ := pr
    rw [hp] at h
    simp only at h
    by_cases hue : ((rest.dropWhile pyCharIsSpace).takeWhile isLowerChar).isEmpty = true
    · rw [if_pos hue] at h
      exact Option.noConfusion h
    · rw [if_neg hue] at h
      by_cases hre : ((rest.dropWhile pyCharIsSpace).dropWhile isLowerChar).isEmpty = true
      · rw [if_pos hre] at h
        simp only [Option.some.injEq, Prod.mk.injEq] at h
        obtain ⟨d1, frac, hcs, hne, hdig, hfrac⟩ := parseNumber_sound cs q0 rest hp
        have hdnil : (rest.dropWhile pyCharIsSpace).dropWhile isLowerChar = [] :=
          List.isEmpty_iff.mp hre
        have hrest2 : rest.dropWhile pyCharIsSpace = u := by
          have := List.takeWhile_append_dropWhile isLowerChar (rest.dropWhile pyCharIsSpace)
          rw [hdnil, List.append_nil, h.2] at this
          exact this.symm
        have hrest : rest = rest.takeWhile pyCharIsSpace ++ u := by
          rw [← hrest2]
          exact (List.takeWhile_append_dropWhile pyCharIsSpace rest).symm
        refine ⟨d1, frac, rest.takeWhile pyCharIsSpace, ?_, hne, hdig, hfrac,
          fun c hc => List.mem_takeWhile_imp hc, ?_, ?_⟩
        · rw [hcs]
          conv_lhs => rw [hrest]
          rw [← List.append_assoc]
        · intro hc
          exact hue (by rw [h.2, hc]; rfl)
        · intro c hc
          rw [← h.2] at hc
          exact List.mem_takeWhile_imp hc
      · rw [if_neg hre] at h
        exact Option.noConfusion h

theorem matchSize_complete (cs d1 frac sp u : List Char)
    (h : SizeDecomp cs d1 frac sp u) : ∃ q, matchSize cs = some (q, u) := by
  obtain ⟨hcs, hd1ne, hd1dig, hfrac, hsp, hune, hulow⟩ := h
  have hulow' : ∀ c, u.head? = some c → isLowerChar c = true := by
    intro c hc
    cases u with
    | nil => exact Option.noConfusion hc
    | cons a l =>
      have : a = c := Option.some.inj hc
      exact this ▸ hulow a (List.mem_cons_self a l)
  have hheadSU : ∀ c, (sp ++ u).head? = some c → isDigitChar c = false := by
    intro c hc
    cases sp with
    | nil =>
      simp only [List.nil_append] at hc
      exact (lowerChar_facts c (hulow' c hc)).1
    | cons s sp2 =>
      simp only [List.cons_append, List.head?_cons, Option.some.injEq] at hc
      exact (spaceChar_facts c (hc ▸ hsp s (List.mem_cons_self s sp2))).1
  have hheadSU' : ∀ c, (sp ++ u).head? = some c → c ≠ ('.') := by
    intro c hc
    cases sp with
    | nil =>
      simp only [List.nil_append] at hc
      exact (lowerChar_facts c (hulow' c hc)).2.2
    | cons s sp2 =>
      simp only [List.cons_append, List.head?_cons, Option.some.injEq] at hc
      exact (spaceChar_facts c (hc ▸ hsp s (List.mem_cons_self s sp2))).2.2
  have hheadF : ∀ c, (frac ++ sp ++ u).head? = some c → isDigitChar c = false := by
    rcases hfrac with hf | ⟨d2, hf, _, _⟩
    · subst hf
      simpa using hheadSU
    · subst hf
      intro c hc
      simp only [List.cons_append, List.head?_cons, Option.some.injEq] at hc
      rw [← hc]
      decide
  have hsu_ne : sp ++ u ≠ [] := by
    intro hc
    rcases List.append_eq_nil.mp hc with ⟨_, hu2⟩
    exact hune hu2
  -- takeWhile and dropWhile of cs at the digit class
  have hsplit1 := takeWhile_append_all isDigitChar d1 (frac ++ sp ++ u) hd1dig hheadF
  have hcs' : cs = d1 ++ (frac ++ sp ++ u) := by
    rw [hcs, ← List.append_assoc, ← List.append_assoc]
  -- the number part of the match
  have hpn : ∃ v : ℚ, parseNumber cs = some (v, sp ++ u) := by
    rcases hfrac with hf | ⟨d2, hf, hd2ne, hd2dig⟩
    · subst hf
      simp only [List.nil_append] at hsplit1 hcs'
      refine ⟨(digitsToNat d1 : ℚ), ?_⟩
      simp only [parseNumber, hcs', hsplit1.1, hsplit1.2]
      rw [if_neg (by rw [isEmpty_false_of_ne_nil hd1ne]; exact Bool.false_ne_true)]
      cases hsu : sp ++ u with
      | nil => exact absurd hsu hsu_ne
      | cons a l =>
        have ha : a ≠ ('.') := hheadSU' a (by rw [hsu]; rfl)
        dsimp only
        rw [if_neg ha]
    · subst hf
      have hsplit2 := takeWhile_append_all isDigitChar d2 (sp ++ u) hd2dig hheadSU
      refine ⟨((digitsToNat d1 : ℚ) + (digitsToNat d2 : ℚ) / (10 ^ d2.length : ℚ)), ?_⟩
      simp only [parseNumber, hcs', hsplit1.1, hsplit1.2]
      rw [if_neg (by rw [isEmpty_false_of_ne_nil hd1ne]; exact Bool.false_ne_true)]
      simp only [List.cons_append]
      rw [if_pos trivial]
      rw [List.append_assoc]
      rw [hsplit2.1, hsplit2.2]
      rw [if_neg (by rw [isEmpty_false_of_ne_nil hd2ne]; exact Bool.false_ne_true)]
  obtain ⟨v, hpnv⟩ := hpn
  refine ⟨v, ?_⟩
  simp only [matchSize, hpnv]
  have hsplit3 := takeWhile_append_all pyCharIsSpace sp u hsp
    (fun c hc => (lowerChar_facts c (hulow' c hc)).2.1)
  rw [hsplit3.2]
  have htu : u.takeWhile isLowerChar = u :=
    List.takeWhile_eq_self_iff.mpr (fun x hx => by rw [hulow x hx])
  have hdu : u.dropWhile isLowerChar = [] :=
    List.dropWhile_eq_nil_iff.mpr (fun x hx => by rw [hulow x hx])
  rw [htu, hdu]
  rw [if_neg (by rw [isEmpty_false_of_ne_nil hune]; exact Bool.false_ne_true)]
  simp

/-- Claim C8: size_to_bytes maps "1Gb" to 1024^3; two inputs whose
characters agree up to letter case produce identical results (so every
case-variant of an accepted number-unit text maps to the same integer);
and the function succeeds exactly when the input is non-empty, its
lowered and stripped text matches the accepted format (digits, optional
dot-fraction, optional whitespace, lowercase unit to the end) and the
unit is a known byte or bit unit: every other input errors. -/
theorem size_to_bytes_spec :
    size_to_bytes ("1Gb") = Except.ok (1024 ^ 3) ∧
    (∀ s t : String, s.data.map Char.toLower = t.data.map Char.toLower →
      size_to_bytes s = size_to_bytes t) ∧
    (∀ s : String, (∃ n : ℤ, size_to_bytes s = Except.ok n) ↔
      (s ≠ ("") ∧ ∃ d1 frac sp u, SizeDecomp (prepSize s) d1 frac sp u ∧
        knownUnit (String.mk u) = true)) := by
  refine ⟨?_, ?_, ?_⟩
  · with_unfolding_all rfl
  · intro s t hlow
    have hdata : prepSize s = prepSize t := by
      unfold prepSize
      rw [hlow]
    by_cases hs : s = ("")
    · have ht : t = ("") := by
        subst hs
        have h0 : t.data.map Char.toLower = [] := by rw [← hlow]; rfl
        exact String.ext (by rw [List.map_eq_nil_iff.mp h0])
      rw [hs, ht]
    · have ht : ¬ t = ("") := by
        intro hc
        apply hs
        subst hc
        have h0 : s.data.map Char.toLower = [] := by rw [hlow]; rfl
        exact String.ext (by rw [List.map_eq_nil_iff.mp h0])
      unfold size_to_bytes
      rw [if_neg hs, if_neg ht, hdata]
  · intro s
    constructor
    · rintro ⟨n, hn⟩
      unfold size_to_bytes at hn
      by_cases hs : s = ("")
      · rw [if_pos hs] at hn
        exact Except.noConfusion hn
      · rw [if_neg hs] at hn
        refine ⟨hs, ?_⟩
        cases hm : matchSize (prepSize s) with
        | none =>
          rw [hm] at hn
          simp only at hn
          exact Except.noConfusion hn
        | some pr =>
          obtain ⟨q, u⟩ := pr
          rw [hm] at hn
          simp only at hn
          obtain ⟨d1, frac, sp, hdec⟩ := matchSize_sound _ _ _ hm
          refine ⟨d1, frac, sp, u, hdec, ?_⟩
          unfold knownUnit
          cases hb : unitLookup BYTE_UNITS (String.mk u) with
          | some m => rfl
          | none =>
            cases hb2 : unitLookup BIT_UNITS (String.mk u) with
            | some m => rfl
            | none =>
              rw [hb, hb2] at hn
              simp only at hn
              exact Except.noConfusion hn
    · rintro ⟨hs, d1, frac, sp, u, hdec, hku⟩
      obtain ⟨q, hm⟩ := matchSize_complete _ _ _ _ _ hdec
      unfold size_to_bytes
      rw [if_neg hs, hm]
      simp only
      unfold knownUnit at hku
      cases hb : unitLookup BYTE_UNITS (String.mk u) with
      | some m =>
        exact ⟨Rat.floor (q * (m : ℚ)), rfl⟩
      | none =>
        rw [hb] at hku
        simp only [Option.isSome_none, Bool.false_or] at hku
        cases hb2 : unitLookup BIT_UNITS (String.mk u) with
        | some m =>
          exact ⟨Rat.floor (q * (m : ℚ)), rfl⟩
        | none =>
          rw [hb2] at hku
          exact absurd hku (by simp)

/-- Witness for C8: the case-variants "1GB" and "1gB" of "1gb" map to
the same result, and that value computes to 1024^3 bytes. -/
theorem size_to_bytes_spec_witness :
    size_to_bytes ("1GB") = size_to_bytes ("1gB") ∧
    size_to_bytes ("1gB") = Except.ok (1073741824) :=
  ⟨size_to_bytes_spec.2.1 ("1GB") ("1gB") (by with_unfolding_all rfl),
   by with_unfolding_all rfl⟩

end PromEmu
